import Mathlib

/-!
Verification development for the `music-streamer` audio feature extraction
scripts (`src/server/scripts/analyze_audio.py` and
`src/server/scripts/analyze_batch.py`).

The two Python files duplicate the same constants and functions
(`MAJOR_PROFILE`, `MINOR_PROFILE`, `KEY_NAMES`, `detect_key`,
`classify_mood`, and the per-file analysis body); each is embedded here
once.  Python floats are modelled as exact rationals.  A Pearson
correlation coefficient `C / sqrt(Vx * Vy)` (as produced by
`np.corrcoef(x, y)[0, 1]`) is represented symbolically by the pair
`(C, Vx * Vy)` so that the float comparisons of the source are decidable
over `ℚ`; `none` represents NaN (`np.corrcoef` with a zero-variance
argument).  Bridge lemmas (`corrGtB_iff_real`, `corrGtB_none_iff_real`)
prove that the symbolic comparison agrees with the real-number comparison
the floats approximate.
-/

set_option maxRecDepth 10000

/- The Batteries arithmetic on `ℚ` is `@[irreducible]`, which blocks
kernel-checked evaluation of the concrete examples below; restore the
default transparency for this file. -/
attribute [local semireducible] Rat.add Rat.mul Rat.sub Rat.inv Rat.ofScientific

namespace MusicStreamer

/-- A 12-dimensional pitch-class vector (one entry per semitone). -/
abbrev Vec12 := Fin 12 → ℚ

/-- A chroma matrix: 12 pitch-class rows, each a time series of frames
(shape 12 × T in the source, row-indexed here). -/
abbrev Chroma := Fin 12 → List ℚ

/-- Krumhansl-Schmuckler major profile (both source files, line 26/31). -/
def MAJOR_PROFILE : Vec12 :=
  ![6.35, 2.23, 3.48, 2.33, 4.38, 4.09, 2.52, 5.19, 2.39, 3.66, 2.29, 2.88]

/-- Krumhansl-Schmuckler minor profile (both source files, line 27/32). -/
def MINOR_PROFILE : Vec12 :=
  ![6.33, 2.68, 3.52, 5.38, 2.60, 3.53, 2.54, 4.75, 3.98, 2.69, 3.34, 3.17]

/-- Pitch-class names, `KEY_NAMES[i]` (both source files): the sharp-based
spelling C, C#, D, D#, E, F, F#, G, G#, A, A#, B indexed by semitone. -/
def KEY_NAMES : Fin 12 → String
  | 0 => "C"
  | 1 => "C#"
  | 2 => "D"
  | 3 => "D#"
  | 4 => "E"
  | 5 => "F"
  | 6 => "F#"
  | 7 => "G"
  | 8 => "G#"
  | 9 => "A"
  | 10 => "A#"
  | 11 => "B"

/-- `np.roll(p, i)`: cyclic right-shift, `(roll p i) j = p ((j - i) mod 12)`. -/
def roll (p : Vec12) (i : Fin 12) : Vec12 := fun j => p (j - i)

/-- `np.mean` of a 1-D sequence (mean over the T frames of one chroma row). -/
def listMean (l : List ℚ) : ℚ := l.sum / l.length

/-- `np.mean(chroma, axis=1)`: the time-averaged 12-vector. -/
def chromaMean (c : Chroma) : Vec12 := fun p => listMean (c p)

/-- Mean of a 12-vector. -/
def vmean (x : Vec12) : ℚ := (∑ i, x i) / 12

/-- Centered cross-product sum (covariance numerator). -/
def vcov (x y : Vec12) : ℚ := ∑ i, (x i - vmean x) * (y i - vmean y)

/-- Centered square sum (variance numerator). -/
def vvar (x : Vec12) : ℚ := ∑ i, (x i - vmean x) ^ 2

/-- `np.corrcoef(x, y)[0, 1]`.  The real value is
`vcov x y / sqrt (vvar x * vvar y)`; it is represented exactly as the pair
`(vcov x y, vvar x * vvar y)`.  When either variance is zero the
coefficient is NaN, represented as `none`. -/
def corrcoef (x y : Vec12) : Option (ℚ × ℚ) :=
  if vvar x = 0 ∨ vvar y = 0 then none
  else some (vcov x y, vvar x * vvar y)

/-- The float comparison `cand > best` of the `detect_key` loop, on the
symbolic representation.  `best = none` is the initialisation
`best_corr = -2`; `cand = none` is a NaN coefficient (any float comparison
with NaN is false, so a NaN candidate never updates the best). -/
def corrGtB : Option (ℚ × ℚ) → Option (ℚ × ℚ) → Bool
  | none, _ => false
  | some (c, v), none => decide (0 ≤ c) || decide (c ^ 2 < 4 * v)
  | some (c1, v1), some (c2, v2) =>
    if 0 ≤ c1 then (if 0 ≤ c2 then decide (c2 ^ 2 * v1 < c1 ^ 2 * v2) else true)
    else (if 0 ≤ c2 then false else decide (c1 ^ 2 * v2 < c2 ^ 2 * v1))

/-- The 24 candidates of the `detect_key` loop, in evaluation order:
offsets ascending 0..11, major before minor at each offset; each paired
with its label. -/
def candidates (v : Vec12) : List (Option (ℚ × ℚ) × String) :=
  (List.finRange 12).flatMap fun i =>
    [(corrcoef v (roll MAJOR_PROFILE i), KEY_NAMES i ++ " major"),
     (corrcoef v (roll MINOR_PROFILE i), KEY_NAMES i ++ " minor")]

/-- One update of the loop state `(best_corr, best_key)`: replace only on
strict improvement. -/
def keyStep (best cand : Option (ℚ × ℚ) × String) : Option (ℚ × ℚ) × String :=
  if corrGtB cand.1 best.1 then cand else best

/-- The `detect_key` loop run on an already-averaged chroma vector:
state initialised to `best_corr = -2` (`none`), `best_key = "C major"`. -/
def detectKeyFromMean (v : Vec12) : String :=
  ((candidates v).foldl keyStep (none, "C major")).2

/-- `detect_key(chroma)` (analyze_audio.py lines 31-58, duplicated in
analyze_batch.py lines 36-57). -/
def detect_key (c : Chroma) : String := detectKeyFromMean (chromaMean c)

/-- `classify_mood(energy, valence, tempo)` (analyze_audio.py lines 61-76,
duplicated in analyze_batch.py lines 60-73). -/
def classify_mood (energy valence tempo : ℚ) : String :=
  if energy > 0.6 ∧ tempo > 120 then "energetic"
  else if energy > 0.5 ∧ valence > 0.5 then "happy"
  else if energy < 0.4 ∧ valence < 0.4 then "melancholic"
  else if energy < 0.5 ∧ tempo < 100 then "chill"
  else if energy > 0.7 then "intense"
  else "neutral"

/-- The mood rule table of §4.2 of the spec, as ordered data: condition
paired with label, to be scanned top-to-bottom, first match winning,
`"neutral"` when none matches.  (This is the spec-side view; `classify_mood`
above is the source-side chain of conditionals.) -/
def moodRules : List ((ℚ × ℚ × ℚ → Bool) × String) :=
  [(fun x => decide (x.1 > 0.6) && decide (x.2.2 > 120), "energetic"),
   (fun x => decide (x.1 > 0.5) && decide (x.2.1 > 0.5), "happy"),
   (fun x => decide (x.1 < 0.4) && decide (x.2.1 < 0.4), "melancholic"),
   (fun x => decide (x.1 < 0.5) && decide (x.2.2 < 100), "chill"),
   (fun x => decide (x.1 > 0.7), "intense")]

/-- First-match scan of the mood rule table. -/
def moodTableLookup (energy valence tempo : ℚ) : String :=
  ((moodRules.find? fun r => r.1 (energy, valence, tempo)).map Prod.snd).getD "neutral"

/-! ## FeatureExtractor (`analyze` / `analyze_single`)

The Audio Analysis Library (librosa) is the external collaborator of §6 of
the spec: it is modelled as a record of primitives, each returning
`Except String _` — `Except.error msg` models the primitive raising an
exception with message `msg`.  The `try`/`except` block of the source is
the final `match` converting any propagated error into the failure
variant. -/

/-- The librosa primitives used by `analyze` (decoded samples are the
`List ℚ` buffer, the sample rate a `ℚ`). -/
structure AudioLib where
  load : String → ℚ → Bool → ℚ → Except String (List ℚ × ℚ)
  beat_track : List ℚ → ℚ → Except String ℚ
  chroma_cqt : List ℚ → ℚ → Except String Chroma
  rms : List ℚ → Except String (List ℚ)
  onset_strength : List ℚ → ℚ → Except String (List ℚ)
  plp : List ℚ → ℚ → Except String (List ℚ)
  spectral_centroid : List ℚ → ℚ → Except String (List ℚ)

/-- `min(1.0, max(0.0, x))`: the clamp applied to energy, danceability and
valence. -/
def clamp01 (x : ℚ) : ℚ := min 1 (max 0 x)

/-- Python `round` to an integer: round half to even on the exact value.
(On floats Python rounds the binary value; the idealisation here rounds
the exact rational.) -/
def pyRoundInt (x : ℚ) : ℤ :=
  if x - ⌊x⌋ < 1 / 2 then ⌊x⌋
  else if 1 / 2 < x - ⌊x⌋ then ⌊x⌋ + 1
  else if 2 ∣ ⌊x⌋ then ⌊x⌋ else ⌊x⌋ + 1

/-- Python `round(x, d)`. -/
def pyRound (x : ℚ) (d : ℕ) : ℚ := (pyRoundInt (x * 10 ^ d) : ℚ) / 10 ^ d

/-- The six feature fields of a successful analysis. -/
structure Features where
  bpm : ℚ
  key : String
  energy : ℚ
  danceability : ℚ
  valence : ℚ
  mood : String
deriving DecidableEq, Repr

/-- `AnalysisResult`: the dict returned by `analyze` — either the success
record (`"success": True`) or `{"error": e, "success": False}`. -/
inductive AnalysisResult where
  | success : Features → AnalysisResult
  | failure : String → AnalysisResult
deriving DecidableEq, Repr

/-- The body of the `try` block of `analyze` (analyze_audio.py lines
79-128, duplicated as `analyze_single` in analyze_batch.py lines 76-123):
each librosa call is sequenced, an error anywhere aborting the chain with
that error.  The numerology is the source's: sample rate 22050, duration
cap 180 s, energy divisor 0.15, valence divisor 5000, bpm rounded to 1
decimal, the three scalars to 3. -/
def analyzeE (lib : AudioLib) (file_path : String) : Except String Features :=
  match lib.load file_path 22050 true 180 with
  | .error e => .error e
  | .ok (y, sr) =>
    match lib.beat_track y sr with
    | .error e => .error e
    | .ok tempo =>
      let bpm := tempo
      match lib.chroma_cqt y sr with
      | .error e => .error e
      | .ok chroma =>
        let key := detect_key chroma
        match lib.rms y with
        | .error e => .error e
        | .ok rmsv =>
          let energy := clamp01 (listMean rmsv / 0.15)
          match lib.onset_strength y sr with
          | .error e => .error e
          | .ok onset_env =>
            match lib.plp onset_env sr with
            | .error e => .error e
            | .ok pulse =>
              let danceability := clamp01 (listMean pulse)
              match lib.spectral_centroid y sr with
              | .error e => .error e
              | .ok sc =>
                let valence := clamp01 (listMean sc / 5000)
                let mood := classify_mood energy valence bpm
                .ok { bpm := pyRound bpm 1, key := key, energy := pyRound energy 3,
                      danceability := pyRound danceability 3,
                      valence := pyRound valence 3, mood := mood }

/-- `analyze(file_path)`: the `try`/`except Exception` wrapper — any error
from the body becomes the failure dict. -/
def analyze (lib : AudioLib) (file_path : String) : AnalysisResult :=
  match analyzeE lib file_path with
  | .ok f => .success f
  | .error e => .failure e

/-- `analyze_single` of analyze_batch.py is a line-for-line copy of
`analyze` of analyze_audio.py. -/
def analyze_single : AudioLib → String → AnalysisResult := analyze

/-! ## BatchOrchestrator

Python dicts are modelled as association lists with dict assignment
semantics (`dinsert`: overwrite in place if the key is present, else
append).  The nondeterministic completion order of
`concurrent.futures.as_completed` is an explicit parameter `completion`,
constrained in the theorems to be a permutation of the submitted list —
one future per submitted occurrence. -/

/-- A Python dict mapping file paths to analysis results. -/
abbrev AList := List (String × AnalysisResult)

/-- `results[k] = v` on a Python dict. -/
def dinsert (m : AList) (k : String) (v : AnalysisResult) : AList :=
  match m with
  | [] => [(k, v)]
  | (k', v') :: rest => if k' = k then (k, v) :: rest else (k', v') :: dinsert rest k v

/-- `results[k]` lookup. -/
def dlookup (k : String) (m : AList) : Option AnalysisResult :=
  match m with
  | [] => none
  | (k', v) :: rest => if k' = k then some v else dlookup k rest

/-- The key list of a dict, in insertion order. -/
def keys (m : AList) : List String := m.map Prod.fst

/-- `analyze_batch(file_paths)` of analyze_audio.py (lines 131-138): the
sequential loop `for path in file_paths: results[path] = analyze(path)`. -/
def analyze_batch_seq (lib : AudioLib) (file_paths : List String) : AList :=
  file_paths.foldl (fun results path => dinsert results path (analyze lib path)) []

/-- `analyze_batch(file_paths, workers)` of analyze_batch.py (lines
126-146): one `analyze_single` future per submitted path, results
collected in completion order.  `workers` only sizes the pool and does not
enter the result; `completion` is the order `as_completed` yields the
futures.  (The `except` around `future.result()` also maps a worker-level
crash to a failure entry; in this pure model a future's result is always
`analyze_single lib path`.) -/
def analyze_batch (lib : AudioLib) (file_paths : List String)
    (workers : Option ℕ) (completion : List String) : AList :=
  let _ := (file_paths, workers)
  completion.foldl (fun results path => dinsert results path (analyze_single lib path)) []

/-! ## Process boundary (`__main__` of analyze_batch.py)

A minimal JSON value model, enough to state what shape `json.dumps`
prints. -/

inductive Json where
  | jbool : Bool → Json
  | jnum : ℚ → Json
  | jstr : String → Json
  | jobj : List (String × Json) → Json

/-- The JSON object printed for one `AnalysisResult` (the dict literals of
the source, field order preserved). -/
def resultJson : AnalysisResult → Json
  | .success f => .jobj [("bpm", .jnum f.bpm), ("key", .jstr f.key),
      ("energy", .jnum f.energy), ("danceability", .jnum f.danceability),
      ("valence", .jnum f.valence), ("mood", .jstr f.mood),
      ("success", .jbool true)]
  | .failure e => .jobj [("error", .jstr e), ("success", .jbool false)]

/-- The JSON object printed for a batch result dict. -/
def batchJson (m : AList) : Json := .jobj (m.map fun kv => (kv.1, resultJson kv.2))

/-- The payload printed by `__main__` of analyze_batch.py once a nonempty
`file_paths` has been parsed (lines 163-170): a single submitted path is
analyzed directly and its bare result printed; otherwise the batch map is
printed. -/
def mainOutput (lib : AudioLib) (file_paths : List String)
    (workers : Option ℕ) (completion : List String) : Json :=
  if file_paths.length = 1 then resultJson (analyze_single lib (file_paths.headD ""))
  else batchJson (analyze_batch lib file_paths workers completion)

/-! ## Lemmas about the `detect_key` loop -/

/-- A NaN candidate never has `corrGtB _ = true`. -/
lemma corrGtB_isSome {o b : Option (ℚ × ℚ)} (h : corrGtB o b = true) : o.isSome := by
  cases o with
  | none => simp [corrGtB] at h
  | some p => rfl

/-- If no candidate beats the current state, the fold leaves it unchanged. -/
lemma foldl_keyStep_eq_self (l : List (Option (ℚ × ℚ) × String))
    (s : Option (ℚ × ℚ) × String) (h : ∀ c ∈ l, corrGtB c.1 s.1 = false) :
    l.foldl keyStep s = s := by
  induction l with
  | nil => rfl
  | cons a l ih =>
    have ha : corrGtB a.1 s.1 = false := h a (List.mem_cons_self a l)
    have hs : keyStep s a = s := by simp [keyStep, ha]
    simpa [hs] using ih fun c hc => h c (List.mem_cons_of_mem a hc)

/-- The fold's state is the initial state or a candidate of the list with a
defined (non-NaN) coefficient. -/
lemma foldl_keyStep_mem (l : List (Option (ℚ × ℚ) × String))
    (s : Option (ℚ × ℚ) × String) :
    l.foldl keyStep s = s ∨
      (l.foldl keyStep s ∈ l ∧ (l.foldl keyStep s).1.isSome) := by
  induction l generalizing s with
  | nil => exact Or.inl rfl
  | cons a l ih =>
    rw [List.foldl_cons]
    rcases ih (keyStep s a) with h | ⟨hmem, hsome⟩
    · rw [h]
      by_cases hc : corrGtB a.1 s.1 = true
      · refine Or.inr ⟨?_, ?_⟩
        · simp [keyStep, hc]
        · simpa [keyStep, hc] using corrGtB_isSome hc
      · simp only [Bool.not_eq_true] at hc
        simp [keyStep, hc]
    · exact Or.inr ⟨List.mem_cons_of_mem a hmem, hsome⟩

/-- Selection lemma for the loop: if candidate `j` beats the `-2` floor,
strictly beats every earlier defined candidate, and no candidate strictly
beats it, then the fold returns candidate `j`. -/
lemma foldl_keyStep_select (l : List (Option (ℚ × ℚ) × String)) (d : String)
    (j : ℕ) (hj : j < l.length)
    (hfloor : corrGtB l[j].1 none = true)
    (hfirst : ∀ c ∈ l.take j, c.1.isSome → corrGtB l[j].1 c.1 = true)
    (hmax : ∀ c ∈ l, corrGtB c.1 l[j].1 = false) :
    l.foldl keyStep (none, d) = l[j] := by
  conv_lhs => rw [← List.take_append_drop j l]
  rw [List.foldl_append]
  have hdrop : l.drop j = l[j] :: l.drop (j + 1) :=
    List.drop_eq_getElem_cons hj
  rw [hdrop, List.foldl_cons]
  have hstep : keyStep ((l.take j).foldl keyStep (none, d)) l[j] = l[j] := by
    rcases foldl_keyStep_mem (l.take j) (none, d) with h | ⟨hmem, hsome⟩
    · rw [h]
      simp [keyStep, hfloor]
    · have hgt := hfirst _ hmem hsome
      simp [keyStep, hgt]
  rw [hstep]
  exact foldl_keyStep_eq_self _ _ fun c hc =>
    hmax c (List.drop_subset (j + 1) l hc)

/-- A defined coefficient satisfies the Cauchy-Schwarz bound, and its
variance product is positive. -/
lemma corrcoef_some {x y : Vec12} {c v : ℚ} (h : corrcoef x y = some (c, v)) :
    c ^ 2 ≤ v ∧ 0 < v := by
  unfold corrcoef at h
  split at h
  · exact absurd h (by simp)
  · rename_i hne
    push_neg at hne
    simp only [Option.some.injEq, Prod.mk.injEq] at h
    obtain ⟨hc, hv⟩ := h
    have hx : 0 < vvar x :=
      lt_of_le_of_ne (Finset.sum_nonneg fun i _ => sq_nonneg _) (Ne.symm hne.1)
    have hy : 0 < vvar y :=
      lt_of_le_of_ne (Finset.sum_nonneg fun i _ => sq_nonneg _) (Ne.symm hne.2)
    have hcs : vcov x y ^ 2 ≤ vvar x * vvar y :=
      Finset.sum_mul_sq_le_sq_mul_sq Finset.univ
        (fun i => x i - vmean x) (fun i => y i - vmean y)
    exact ⟨by rw [← hc, ← hv]; exact hcs, by rw [← hv]; exact mul_pos hx hy⟩

/-- A defined coefficient always beats the `-2` initialisation floor
(a correlation lies in `[-1, 1]`). -/
lemma corrGtB_some_none {c v : ℚ} (h2 : c ^ 2 ≤ v) (hv : 0 < v) :
    corrGtB (some (c, v)) none = true := by
  rcases le_or_lt 0 c with hc | hc
  · simp [corrGtB, hc]
  · have : c ^ 2 < 4 * v := by nlinarith
    simp [corrGtB, this]

/-- Bridge to the reals, floor case: the Boolean comparison against the
`best_corr = -2` initialisation agrees with the comparison of the real
correlation value `c / sqrt v` that the pair `(c, v)` represents. -/
lemma corrGtB_none_iff_real {c v : ℚ} (hv : 0 < v) :
    corrGtB (some (c, v)) none = true ↔
      (-2 : ℝ) < (c : ℝ) / Real.sqrt (v : ℝ) := by
  have hvr : (0 : ℝ) < (v : ℝ) := by exact_mod_cast hv
  have hs : 0 < Real.sqrt (v : ℝ) := Real.sqrt_pos.2 hvr
  have hs2 : Real.sqrt (v : ℝ) ^ 2 = (v : ℝ) := Real.sq_sqrt hvr.le
  have heq : corrGtB (some (c, v)) none
      = (decide (0 ≤ c) || decide (c ^ 2 < 4 * v)) := rfl
  rw [heq, lt_div_iff₀ hs, Bool.or_eq_true, decide_eq_true_eq, decide_eq_true_eq]
  constructor
  · rintro (hc | hc)
    · have hcr : (0 : ℝ) ≤ (c : ℝ) := by exact_mod_cast hc
      nlinarith
    · have hcr : (c : ℝ) ^ 2 < 4 * (v : ℝ) := by exact_mod_cast hc
      by_contra hcon
      push_neg at hcon
      have h1 : (c : ℝ) + 2 * Real.sqrt (v : ℝ) ≤ 0 := by linarith
      have h2 : (c : ℝ) - 2 * Real.sqrt (v : ℝ) ≤ 0 := by nlinarith
      have hprod := mul_nonneg (neg_nonneg.2 h1) (neg_nonneg.2 h2)
      rw [neg_mul_neg] at hprod
      nlinarith
  · intro hlt
    rcases le_or_lt 0 c with hc | hc
    · exact Or.inl hc
    · refine Or.inr ?_
      have hcr : (c : ℝ) < 0 := by exact_mod_cast hc
      have h1 : (0 : ℝ) < 2 * Real.sqrt (v : ℝ) + (c : ℝ) := by linarith
      have h2 : (0 : ℝ) < 2 * Real.sqrt (v : ℝ) - (c : ℝ) := by nlinarith
      have hprod := mul_pos h1 h2
      have : (c : ℝ) ^ 2 < 4 * (v : ℝ) := by nlinarith
      exact_mod_cast this

/-- Bridge to the reals, general case: the Boolean comparison between two
defined coefficients agrees with the comparison of the real correlation
values they represent. -/
lemma corrGtB_some_iff_real {c1 v1 c2 v2 : ℚ} (h1 : 0 < v1) (h2 : 0 < v2) :
    corrGtB (some (c1, v1)) (some (c2, v2)) = true ↔
      (c2 : ℝ) / Real.sqrt (v2 : ℝ) < (c1 : ℝ) / Real.sqrt (v1 : ℝ) := by
  have h1r : (0 : ℝ) < (v1 : ℝ) := by exact_mod_cast h1
  have h2r : (0 : ℝ) < (v2 : ℝ) := by exact_mod_cast h2
  have hs1 : 0 < Real.sqrt (v1 : ℝ) := Real.sqrt_pos.2 h1r
  have hs2 : 0 < Real.sqrt (v2 : ℝ) := Real.sqrt_pos.2 h2r
  have hq1 : Real.sqrt (v1 : ℝ) ^ 2 = (v1 : ℝ) := Real.sq_sqrt h1r.le
  have hq2 : Real.sqrt (v2 : ℝ) ^ 2 = (v2 : ℝ) := Real.sq_sqrt h2r.le
  have heq : corrGtB (some (c1, v1)) (some (c2, v2))
      = if 0 ≤ c1 then (if 0 ≤ c2 then decide (c2 ^ 2 * v1 < c1 ^ 2 * v2) else true)
        else (if 0 ≤ c2 then false else decide (c1 ^ 2 * v2 < c2 ^ 2 * v1)) := rfl
  rw [heq, div_lt_div_iff₀ hs2 hs1]
  rcases le_or_lt 0 c1 with hc1 | hc1 <;> rcases le_or_lt 0 c2 with hc2 | hc2
  · have hc1r : (0 : ℝ) ≤ (c1 : ℝ) := by exact_mod_cast hc1
    have hc2r : (0 : ℝ) ≤ (c2 : ℝ) := by exact_mod_cast hc2
    rw [if_pos hc1, if_pos hc2, decide_eq_true_eq]
    have hsq : (c2 : ℝ) * Real.sqrt (v1 : ℝ) < (c1 : ℝ) * Real.sqrt (v2 : ℝ) ↔
        ((c2 : ℝ) * Real.sqrt (v1 : ℝ)) ^ 2 < ((c1 : ℝ) * Real.sqrt (v2 : ℝ)) ^ 2 :=
      (pow_lt_pow_iff_left₀ (mul_nonneg hc2r hs1.le) (mul_nonneg hc1r hs2.le)
        two_ne_zero).symm
    rw [hsq, mul_pow, mul_pow, hq1, hq2]
    exact_mod_cast Iff.rfl
  · have hc2r : (c2 : ℝ) < 0 := by exact_mod_cast hc2
    have hc1r : (0 : ℝ) ≤ (c1 : ℝ) := by exact_mod_cast hc1
    rw [if_pos hc1, if_neg (not_le.2 hc2)]
    have hneg : (c2 : ℝ) * Real.sqrt (v1 : ℝ) < 0 := mul_neg_of_neg_of_pos hc2r hs1
    have hpos : (0 : ℝ) ≤ (c1 : ℝ) * Real.sqrt (v2 : ℝ) := mul_nonneg hc1r hs2.le
    exact iff_of_true rfl (by linarith)
  · have hc1r : (c1 : ℝ) < 0 := by exact_mod_cast hc1
    have hc2r : (0 : ℝ) ≤ (c2 : ℝ) := by exact_mod_cast hc2
    rw [if_neg (not_le.2 hc1), if_pos hc2]
    have hneg : (c1 : ℝ) * Real.sqrt (v2 : ℝ) < 0 := mul_neg_of_neg_of_pos hc1r hs2
    have hpos : (0 : ℝ) ≤ (c2 : ℝ) * Real.sqrt (v1 : ℝ) := mul_nonneg hc2r hs1.le
    exact iff_of_false (by simp) (not_lt.2 (by linarith))
  · have hc1r : (c1 : ℝ) < 0 := by exact_mod_cast hc1
    have hc2r : (c2 : ℝ) < 0 := by exact_mod_cast hc2
    rw [if_neg (not_le.2 hc1), if_neg (not_le.2 hc2), decide_eq_true_eq]
    have ha : (0 : ℝ) ≤ -((c1 : ℝ) * Real.sqrt (v2 : ℝ)) :=
      neg_nonneg.2 (mul_neg_of_neg_of_pos hc1r hs2).le
    have hb : (0 : ℝ) ≤ -((c2 : ℝ) * Real.sqrt (v1 : ℝ)) :=
      neg_nonneg.2 (mul_neg_of_neg_of_pos hc2r hs1).le
    have hsq : -((c1 : ℝ) * Real.sqrt (v2 : ℝ)) < -((c2 : ℝ) * Real.sqrt (v1 : ℝ)) ↔
        (-((c1 : ℝ) * Real.sqrt (v2 : ℝ))) ^ 2 < (-((c2 : ℝ) * Real.sqrt (v1 : ℝ))) ^ 2 :=
      (pow_lt_pow_iff_left₀ ha hb two_ne_zero).symm
    have hiff : (c2 : ℝ) * Real.sqrt (v1 : ℝ) < (c1 : ℝ) * Real.sqrt (v2 : ℝ) ↔
        (c1 : ℝ) ^ 2 * (v2 : ℝ) < (c2 : ℝ) ^ 2 * (v1 : ℝ) := by
      rw [← neg_lt_neg_iff, hsq, neg_sq, neg_sq, mul_pow, mul_pow, hq1, hq2]
    rw [hiff]
    exact_mod_cast Iff.rfl

/-- Every element of `candidates v` carries a coefficient produced by
`corrcoef`, hence satisfying the Cauchy-Schwarz bound when defined. -/
lemma candidates_corr_bound {v : Vec12} {cand : Option (ℚ × ℚ) × String}
    (h : cand ∈ candidates v) {c vr : ℚ} (hc : cand.1 = some (c, vr)) :
    c ^ 2 ≤ vr ∧ 0 < vr := by
  unfold candidates at h
  rw [List.mem_flatMap] at h
  obtain ⟨i, _, hmem⟩ := h
  simp only [List.mem_cons, List.not_mem_nil, or_false] at hmem
  rcases hmem with h | h <;> · subst h; exact corrcoef_some hc

/-! ## Lemmas about Python dicts and the batch folds -/

lemma dlookup_dinsert (m : AList) (k k' : String) (v : AnalysisResult) :
    dlookup k' (dinsert m k v) = if k = k' then some v else dlookup k' m := by
  induction m with
  | nil => simp [dinsert, dlookup]
  | cons a rest ih =>
    by_cases ha : a.1 = k
    · simp only [dinsert, ha, if_true, dlookup]
      by_cases hk : k = k' <;> simp [dlookup, hk, ha]
    · simp only [dinsert, ha, if_false, dlookup]
      by_cases ha' : a.1 = k'
      · have : k ≠ k' := fun h => ha (h ▸ ha')
        simp [ha', this]
      · simp [ha', ih]

lemma mem_keys_dinsert (m : AList) (k k' : String) (v : AnalysisResult) :
    k' ∈ keys (dinsert m k v) ↔ k' = k ∨ k' ∈ keys m := by
  induction m with
  | nil => simp [dinsert, keys]
  | cons a rest ih =>
    obtain ⟨ak, av⟩ := a
    by_cases ha : ak = k
    · subst ha
      simp only [dinsert, if_true, keys, List.map_cons, List.mem_cons]
      tauto
    · simp only [dinsert, ha, if_false, keys, List.map_cons, List.mem_cons] at ih ⊢
      rw [ih]
      tauto

lemma keys_dinsert_not_mem (m : AList) (k : String) (v : AnalysisResult)
    (h : k ∉ keys m) : keys (dinsert m k v) = keys m ++ [k] := by
  induction m with
  | nil => simp [dinsert, keys]
  | cons a rest ih =>
    obtain ⟨ak, av⟩ := a
    simp only [keys, List.map_cons, List.mem_cons, not_or] at h
    have ha : ak ≠ k := fun h' => h.1 h'.symm
    simp only [dinsert, ha, if_false, keys, List.map_cons, List.cons_append,
      List.cons.injEq, true_and]
    exact ih h.2

lemma keys_dinsert_mem (m : AList) (k : String) (v : AnalysisResult)
    (hk : k ∈ keys m) : keys (dinsert m k v) = keys m := by
  induction m with
  | nil => simp [keys] at hk
  | cons a rest ih =>
    obtain ⟨ak, av⟩ := a
    by_cases ha : ak = k
    · subst ha
      simp [dinsert, keys]
    · simp only [keys, List.map_cons, List.mem_cons] at hk
      have hk' : k ∈ keys rest := by
        rcases hk with h' | h'
        · exact absurd h'.symm ha
        · exact h'
      simp only [dinsert, ha, if_false, keys, List.map_cons, List.cons.injEq, true_and]
      exact ih hk'

lemma keys_dinsert_nodup (m : AList) (k : String) (v : AnalysisResult)
    (h : (keys m).Nodup) : (keys (dinsert m k v)).Nodup := by
  by_cases hk : k ∈ keys m
  · rw [keys_dinsert_mem m k v hk]
    exact h
  · rw [keys_dinsert_not_mem m k v hk]
    simp [List.nodup_append, h, hk]

/-- Lookup after folding dict assignments `m[p] = f p` over a list of
paths: the last write wins, and every write for path `k` writes `f k`. -/
lemma dlookup_foldl_dinsert (f : String → AnalysisResult) (l : List String)
    (init : AList) (k : String) :
    dlookup k (l.foldl (fun m p => dinsert m p (f p)) init)
      = if k ∈ l then some (f k) else dlookup k init := by
  induction l generalizing init with
  | nil => simp
  | cons p l ih =>
    rw [List.foldl_cons, ih]
    by_cases hl : k ∈ l
    · simp [hl]
    · rw [if_neg hl, dlookup_dinsert]
      by_cases hp : k = p
      · subst hp
        simp [hl]
      · have hmem : ¬ k ∈ p :: l := by
          rw [List.mem_cons]
          tauto
        rw [if_neg (fun h => hp h.symm), if_neg hmem]

lemma mem_keys_foldl_dinsert (f : String → AnalysisResult) (l : List String)
    (init : AList) (k : String) :
    k ∈ keys (l.foldl (fun m p => dinsert m p (f p)) init)
      ↔ k ∈ keys init ∨ k ∈ l := by
  induction l generalizing init with
  | nil => simp
  | cons p l ih =>
    rw [List.foldl_cons, ih, mem_keys_dinsert]
    simp only [List.mem_cons]
    tauto

lemma keys_foldl_dinsert_nodup (f : String → AnalysisResult) (l : List String)
    (init : AList) (h : (keys init).Nodup) :
    (keys (l.foldl (fun m p => dinsert m p (f p)) init)).Nodup := by
  induction l generalizing init with
  | nil => exact h
  | cons p l ih => exact ih _ (keys_dinsert_nodup _ _ _ h)

/-- With distinct paths disjoint from the accumulator, the fold appends
the paths to the key list in order. -/
lemma keys_foldl_dinsert_of_nodup (f : String → AnalysisResult) (l : List String)
    (init : AList) (hn : l.Nodup) (hdisj : ∀ k ∈ l, k ∉ keys init) :
    keys (l.foldl (fun m p => dinsert m p (f p)) init) = keys init ++ l := by
  induction l generalizing init with
  | nil => simp
  | cons p l ih =>
    rw [List.foldl_cons]
    have hp : p ∉ keys init := hdisj p (List.mem_cons_self p l)
    have hstep := keys_dinsert_not_mem init p (f p) hp
    rw [List.nodup_cons] at hn
    have hdisj' : ∀ k ∈ l, k ∉ keys (dinsert init p (f p)) := by
      intro k hk
      rw [mem_keys_dinsert]
      push_neg
      exact ⟨fun h => hn.1 (h ▸ hk), hdisj k (List.mem_cons_of_mem p hk)⟩
    rw [ih _ hn.2 hdisj', hstep]
    simp

/-! ## Lemmas about clamping and rounding -/

lemma clamp01_nonneg (x : ℚ) : 0 ≤ clamp01 x :=
  le_min zero_le_one (le_max_left 0 x)

lemma clamp01_le_one (x : ℚ) : clamp01 x ≤ 1 := min_le_left 1 _

lemma pyRoundInt_nonneg {x : ℚ} (h : 0 ≤ x) : 0 ≤ pyRoundInt x := by
  have hf : (0 : ℤ) ≤ ⌊x⌋ := Int.floor_nonneg.2 h
  unfold pyRoundInt
  split_ifs <;> omega

lemma pyRoundInt_le {x : ℚ} {m : ℤ} (h : x ≤ m) : pyRoundInt x ≤ m := by
  have hf : ⌊x⌋ ≤ m := by
    have := Int.floor_le_floor h
    rwa [Int.floor_intCast] at this
  have hup : ∀ hh : ¬(x - ⌊x⌋ < 1 / 2), ⌊x⌋ + 1 ≤ m := by
    intro hh
    push_neg at hh
    rcases lt_or_eq_of_le hf with h' | h'
    · omega
    · exfalso
      have : x ≤ (⌊x⌋ : ℚ) := by
        rw [h']
        exact_mod_cast h
      linarith
  unfold pyRoundInt
  split_ifs with h1 h2 h3
  · exact hf
  · exact hup h1
  · exact hf
  · exact hup h1

lemma pyRound_nonneg {x : ℚ} (d : ℕ) (h : 0 ≤ x) : 0 ≤ pyRound x d := by
  unfold pyRound
  have h1 : (0 : ℤ) ≤ pyRoundInt (x * 10 ^ d) :=
    pyRoundInt_nonneg (mul_nonneg h (by positivity))
  have h2 : (0 : ℚ) ≤ (pyRoundInt (x * 10 ^ d) : ℚ) := by exact_mod_cast h1
  positivity

lemma pyRound_le_one {x : ℚ} (d : ℕ) (h : x ≤ 1) : pyRound x d ≤ 1 := by
  unfold pyRound
  have hpow : (0 : ℚ) < 10 ^ d := by positivity
  have h1 : pyRoundInt (x * 10 ^ d) ≤ ((10 : ℤ) ^ d) := by
    apply pyRoundInt_le
    push_cast
    nlinarith
  rw [div_le_one hpow]
  exact_mod_cast h1

/-! ## Shared concrete inputs for the witnesses -/

/-- A chroma matrix with one frame per row whose time average is exactly
the (unrotated) major profile. -/
def exampleMajorChroma : Chroma := fun p => [MAJOR_PROFILE p]

/-- A chroma matrix whose time average is constant, so every candidate
correlation is NaN. -/
def flatChroma : Chroma := fun _ => [1, 1]

/-- `np.roll` by 0 is the identity. -/
lemma roll_zero (p : Vec12) : roll p 0 = p := by
  funext j
  simp [roll]

/-! ## Claims about `detect_key` -/

/-- C4: `detect_key` examines the 24 candidates in order — offsets
ascending `0..11`, major before minor at each offset — and replaces the
current best only on strictly greater correlation.  Hence if candidate `j`
has a defined coefficient, strictly beats every earlier defined candidate,
and is beaten by none (so `j` is the least index attaining the maximal
correlation), the returned label is candidate `j`'s label. -/
theorem C4_detect_key_tie_break (c : Chroma) (j : ℕ)
    (hj : j < (candidates (chromaMean c)).length)
    (hdef : ((candidates (chromaMean c))[j]).1.isSome)
    (hfirst : ∀ cand ∈ (candidates (chromaMean c)).take j,
      cand.1.isSome → corrGtB ((candidates (chromaMean c))[j]).1 cand.1 = true)
    (hmax : ∀ cand ∈ candidates (chromaMean c),
      corrGtB cand.1 ((candidates (chromaMean c))[j]).1 = false) :
    detect_key c = ((candidates (chromaMean c))[j]).2 := by
  have hfloor : corrGtB ((candidates (chromaMean c))[j]).1 none = true := by
    obtain ⟨⟨cv, vv⟩, hcv⟩ := Option.isSome_iff_exists.1 hdef
    have hb := candidates_corr_bound
      (List.getElem_mem hj) hcv
    rw [hcv]
    exact corrGtB_some_none hb.1 hb.2
  unfold detect_key detectKeyFromMean
  rw [foldl_keyStep_select _ _ j hj hfloor hfirst hmax]

/-- Witness for C4 at a concrete chroma: with the time average equal to
the major profile, the least argmax index is 0 and the label is that
candidate's. -/
theorem C4_witness :
    detect_key exampleMajorChroma
      = ((candidates (chromaMean exampleMajorChroma)).get ⟨0, by decide⟩).2 :=
  C4_detect_key_tie_break exampleMajorChroma 0 (by decide) (by decide)
    (by decide) (by decide)

/-- C5: `detect_key` is rotation-equivariant on the major profile: if the
time-averaged chroma vector equals the major profile rotated cyclically by
`k`, the result is the pitch-class name at index `k` with mode major (the
`k = 0` instance being `"C major"`, by `roll_zero`). -/
theorem C5_detect_key_rotation (c : Chroma) (k : Fin 12)
    (h : chromaMean c = roll MAJOR_PROFILE k) :
    detect_key c = KEY_NAMES k ++ " major" := by
  unfold detect_key
  rw [h]
  clear h
  revert k
  decide

/-- Witness for C5 at a concrete chroma whose time average is the
unrotated major profile (`k = 0`). -/
theorem C5_witness :
    detect_key exampleMajorChroma = KEY_NAMES 0 ++ " major" :=
  C5_detect_key_rotation exampleMajorChroma 0 (by decide)

/-- C8: when no candidate's comparison with the `best_corr = -2`
initialisation succeeds (in particular when every coefficient is NaN
because the time-averaged chroma vector has zero variance), `detect_key`
still returns the initial default `"C major"`. -/
theorem C8_detect_key_default (c : Chroma)
    (h : ∀ cand ∈ candidates (chromaMean c), corrGtB cand.1 none = false) :
    detect_key c = "C major" := by
  unfold detect_key detectKeyFromMean
  rw [foldl_keyStep_eq_self _ _ h]

/-- Witness for C8 at a concrete constant chroma: the averaged vector has
zero variance, every coefficient is NaN, and the default is returned. -/
theorem C8_witness : detect_key flatChroma = "C major" :=
  C8_detect_key_default flatChroma (by decide)

/-! ## Claim about `classify_mood` -/

/-- `List.find?` on a cons, phrased with an `if`. -/
lemma find?_if {α : Type} (p : α → Bool) (a : α) (l : List α) :
    (a :: l).find? p = if p a = true then some a else l.find? p := by
  cases hpa : p a
  · simp [List.find?_cons_of_neg, hpa]
  · simp [List.find?_cons_of_pos, hpa]

/-- C6: `classify_mood` is the top-to-bottom first-match scan of the
five-rule table with strict inequalities and `"neutral"` fallback; and the
boundary evaluations: `(0.61, 0, 121)` is energetic, `(0.6, 0, 121)` is
not (the `0.6` boundary is exclusive), `(0.3, 0.3, 80)` is melancholic,
`(0.45, 0.2, 90)` is chill. -/
theorem C6_classify_mood_table :
    (∀ e v t : ℚ, classify_mood e v t = moodTableLookup e v t) ∧
      classify_mood 0.61 0 121 = "energetic" ∧
      classify_mood 0.6 0 121 ≠ "energetic" ∧
      classify_mood 0.3 0.3 80 = "melancholic" ∧
      classify_mood 0.45 0.2 90 = "chill" := by
  refine ⟨fun e v t => ?_, by decide, by decide, by decide, by decide⟩
  unfold classify_mood moodTableLookup moodRules
  rw [find?_if, find?_if, find?_if, find?_if, find?_if]
  simp only [Bool.and_eq_true, decide_eq_true_eq]
  split_ifs <;> simp

/-! ## Claims about `analyze` -/

/-- C2: for every behaviour of the audio library, `analyze` returns a
result value: either a Success record, or — when the analysis body raises
`e` — exactly the Failure carrying `e`.  No error propagates past the
`try`/`except` boundary. -/
theorem C2_analyze_total (lib : AudioLib) (p : String) :
    (∃ f, analyze lib p = AnalysisResult.success f) ∨
      ∃ e, analyzeE lib p = Except.error e ∧
        analyze lib p = AnalysisResult.failure e := by
  cases h : analyzeE lib p with
  | ok f => exact Or.inl ⟨f, by simp [analyze, h]⟩
  | error e => exact Or.inr ⟨e, rfl, by simp [analyze, h]⟩

/-- C7: every Success result has its energy, danceability and valence in
`[0, 1]`, whatever raw per-frame signals the library returns: the values
are clamped before rounding, and rounding to 3 decimals preserves the
bounds. -/
theorem C7_success_bounds (lib : AudioLib) (p : String) (f : Features)
    (h : analyze lib p = AnalysisResult.success f) :
    0 ≤ f.energy ∧ f.energy ≤ 1 ∧ 0 ≤ f.danceability ∧ f.danceability ≤ 1 ∧
      0 ≤ f.valence ∧ f.valence ≤ 1 := by
  cases heq : analyzeE lib p with
  | error e =>
    have h2 : analyze lib p = AnalysisResult.failure e := by simp [analyze, heq]
    rw [h2] at h
    simp at h
  | ok g =>
    have h2 : analyze lib p = AnalysisResult.success g := by simp [analyze, heq]
    rw [h2] at h
    have hgf : g = f := by injection h
    subst hgf
    unfold analyzeE at heq
    repeat' split at heq
    all_goals first
      | (simp only [Except.ok.injEq] at heq
         subst heq
         exact ⟨pyRound_nonneg 3 (clamp01_nonneg _), pyRound_le_one 3 (clamp01_le_one _),
           pyRound_nonneg 3 (clamp01_nonneg _), pyRound_le_one 3 (clamp01_le_one _),
           pyRound_nonneg 3 (clamp01_nonneg _), pyRound_le_one 3 (clamp01_le_one _)⟩)
      | exact absurd heq (by simp)

/-- A concrete audio library for the witnesses: every primitive succeeds
except loading `"bad.flac"`. -/
def libDemo : AudioLib where
  load := fun path _ _ _ =>
    if path = "bad.flac" then .error "corrupt" else .ok ([0], 22050)
  beat_track := fun _ _ => .ok 130
  chroma_cqt := fun _ _ => .ok exampleMajorChroma
  rms := fun _ => .ok [3/20]
  onset_strength := fun _ _ => .ok [1]
  plp := fun _ _ => .ok [1/2]
  spectral_centroid := fun _ _ => .ok [2500]

/-- The Success record `analyze libDemo "good.flac"` produces. -/
def demoFeatures : Features where
  bpm := 130
  key := "C major"
  energy := 1
  danceability := 1/2
  valence := 1/2
  mood := "energetic"

/-- Witness for C7 at `libDemo`. -/
theorem C7_witness :
    0 ≤ demoFeatures.energy ∧ demoFeatures.energy ≤ 1 ∧
      0 ≤ demoFeatures.danceability ∧ demoFeatures.danceability ≤ 1 ∧
      0 ≤ demoFeatures.valence ∧ demoFeatures.valence ≤ 1 :=
  C7_success_bounds libDemo "good.flac" demoFeatures (by decide)

/-! ## Claims about the batch orchestrator -/

/-- C1: for distinct submitted identifiers and any completion order, the
batch map has exactly one entry per submitted identifier (its key list is
a permutation of the input), and each entry equals the result of analyzing
that identifier on its own — so a failure for one identifier never
removes, replaces or alters another identifier's entry. -/
theorem C1_batch_complete (lib : AudioLib) (file_paths completion : List String)
    (workers : Option ℕ) (p : String)
    (hperm : completion.Perm file_paths) (hnodup : file_paths.Nodup)
    (hp : p ∈ file_paths) :
    (keys (analyze_batch lib file_paths workers completion)).Perm file_paths ∧
      dlookup p (analyze_batch lib file_paths workers completion)
        = some (analyze_single lib p) := by
  have hbatch : analyze_batch lib file_paths workers completion
      = completion.foldl (fun m q => dinsert m q (analyze_single lib q)) [] := rfl
  constructor
  · rw [hbatch, keys_foldl_dinsert_of_nodup _ _ _ (hperm.nodup_iff.2 hnodup)
      (by intro k _; simp [keys])]
    simpa using hperm
  · rw [hbatch, dlookup_foldl_dinsert, if_pos (hperm.mem_iff.2 hp)]

/-- Witness for C1: a two-file batch where one file fails to decode, with
completion order opposite to submission order. -/
theorem C1_witness :
    (keys (analyze_batch libDemo ["good.flac", "bad.flac"] none
        ["bad.flac", "good.flac"])).Perm ["good.flac", "bad.flac"] ∧
      dlookup "good.flac" (analyze_batch libDemo ["good.flac", "bad.flac"] none
        ["bad.flac", "good.flac"]) = some (analyze_single libDemo "good.flac") :=
  C1_batch_complete libDemo ["good.flac", "bad.flac"] ["bad.flac", "good.flac"]
    none "good.flac" (by decide) (by decide) (by decide)

/-- C9: the process-pool batch (analyze_batch.py) and the sequential loop
(analyze_audio.py) agree extensionally: with the per-file analysis the same
pure function, every lookup in the pool's map equals the lookup in the
sequential map, for every completion order and worker count. -/
theorem C9_pool_eq_seq (lib : AudioLib) (file_paths completion : List String)
    (workers : Option ℕ) (k : String) (hperm : completion.Perm file_paths) :
    dlookup k (analyze_batch lib file_paths workers completion)
      = dlookup k (analyze_batch_seq lib file_paths) := by
  have hbatch : analyze_batch lib file_paths workers completion
      = completion.foldl (fun m q => dinsert m q (analyze_single lib q)) [] := rfl
  have hseq : analyze_batch_seq lib file_paths
      = file_paths.foldl (fun m q => dinsert m q (analyze lib q)) [] := rfl
  rw [hbatch, hseq, dlookup_foldl_dinsert, dlookup_foldl_dinsert]
  by_cases hk : k ∈ file_paths
  · rw [if_pos hk, if_pos (hperm.mem_iff.2 hk)]
    rfl
  · rw [if_neg hk, if_neg (fun h => hk (hperm.mem_iff.1 h))]

/-- Witness for C9 at the two-file batch of `C1_witness`. -/
theorem C9_witness :
    dlookup "good.flac" (analyze_batch libDemo ["good.flac", "bad.flac"] none
        ["bad.flac", "good.flac"])
      = dlookup "good.flac" (analyze_batch_seq libDemo ["good.flac", "bad.flac"]) :=
  C9_pool_eq_seq libDemo ["good.flac", "bad.flac"] ["bad.flac", "good.flac"]
    none "good.flac" (by decide)

/-- C10: with duplicate submitted identifiers, the batch map is keyed by
the identifier string: its keys are distinct, a key is present iff it was
submitted, each entry is the identifier's own analysis, and the entry
count is at most (so possibly smaller than) the number of submitted
items. -/
theorem C10_duplicate_paths (lib : AudioLib) (file_paths completion : List String)
    (workers : Option ℕ) (k p : String)
    (hperm : completion.Perm file_paths) (hp : p ∈ file_paths) :
    (keys (analyze_batch lib file_paths workers completion)).Nodup ∧
      (k ∈ keys (analyze_batch lib file_paths workers completion)
        ↔ k ∈ file_paths) ∧
      dlookup p (analyze_batch lib file_paths workers completion)
        = some (analyze_single lib p) ∧
      (analyze_batch lib file_paths workers completion).length
        ≤ file_paths.length := by
  have hbatch : analyze_batch lib file_paths workers completion
      = completion.foldl (fun m q => dinsert m q (analyze_single lib q)) [] := rfl
  rw [hbatch]
  have hnodup : (keys (completion.foldl
      (fun m q => dinsert m q (analyze_single lib q)) [])).Nodup :=
    keys_foldl_dinsert_nodup _ _ _ (by simp [keys])
  refine ⟨hnodup, ?_, ?_, ?_⟩
  · rw [mem_keys_foldl_dinsert]
    simp [keys, hperm.mem_iff]
  · rw [dlookup_foldl_dinsert, if_pos (hperm.mem_iff.2 hp)]
  · have hlen : (completion.foldl
        (fun m q => dinsert m q (analyze_single lib q)) []).length
        = (keys (completion.foldl
            (fun m q => dinsert m q (analyze_single lib q)) [])).length :=
      (List.length_map _ _).symm
    have hsub : keys (completion.foldl
        (fun m q => dinsert m q (analyze_single lib q)) []) ⊆ completion := by
      intro x hx
      rw [mem_keys_foldl_dinsert] at hx
      rcases hx with hx | hx
      · simp [keys] at hx
      · exact hx
    calc (completion.foldl (fun m q => dinsert m q (analyze_single lib q)) []).length
        = _ := hlen
      _ ≤ completion.length := (hnodup.subperm hsub).length_le
      _ = file_paths.length := hperm.length_eq

/-- Witness for C10: the same path submitted twice yields a one-entry
map. -/
theorem C10_witness :
    (keys (analyze_batch libDemo ["good.flac", "good.flac"] none
        ["good.flac", "good.flac"])).Nodup ∧
      ("good.flac" ∈ keys (analyze_batch libDemo ["good.flac", "good.flac"] none
        ["good.flac", "good.flac"]) ↔ "good.flac" ∈ ["good.flac", "good.flac"]) ∧
      dlookup "good.flac" (analyze_batch libDemo ["good.flac", "good.flac"] none
        ["good.flac", "good.flac"]) = some (analyze_single libDemo "good.flac") ∧
      (analyze_batch libDemo ["good.flac", "good.flac"] none
        ["good.flac", "good.flac"]).length ≤ (["good.flac", "good.flac"] : List String).length :=
  C10_duplicate_paths libDemo ["good.flac", "good.flac"] ["good.flac", "good.flac"]
    none "good.flac" "good.flac" (by decide) (by decide)

/-! ## Claim about the single-item special case of `__main__` -/

/-- C3 (refuted — code bug): when exactly one identifier is submitted,
`__main__` of analyze_batch.py prints the bare `AnalysisResult` object,
not the documented one-entry JSON object mapping the identifier to its
result: at a concrete library the emitted payload is the flat result and
differs from the map shape the docstring and spec promise. -/
theorem C3_single_item_shape :
    mainOutput libDemo ["good.flac"] none ["good.flac"]
        = resultJson (analyze_single libDemo "good.flac") ∧
      mainOutput libDemo ["good.flac"] none ["good.flac"]
        ≠ Json.jobj [("good.flac",
            resultJson (analyze_single libDemo "good.flac"))] := by
  have hsucc : analyze_single libDemo "good.flac"
      = AnalysisResult.success demoFeatures := by decide
  refine ⟨rfl, ?_⟩
  intro hcontra
  rw [show mainOutput libDemo ["good.flac"] none ["good.flac"]
      = resultJson (analyze_single libDemo "good.flac") from rfl, hsucc] at hcontra
  simp only [resultJson] at hcontra
  injection hcontra with h1
  injection h1 with h2 h3
  injection h2 with h4 h5
  exact absurd h4 (by decide)

end MusicStreamer
